import Mathlib

/-!
Shallow embedding of the WeaveLang interpreter core
(src/src/interpreter.rs) and its host boundary layer
(src/src/weavelang_godot.rs).

`HashMap<String, f32>` and `HashMap<String, HashMap<String, f32>>` are
embedded as association lists with first-match lookup; `f32` values are
embedded as exact rationals.  A Rust `unwrap()` panic (process abort) is
modelled as `Option.none`.
-/

/-- A parameter set: association list from parameter name to numeric value
(embedding of `HashMap<String, f32>`). -/
abbrev ParamSet := List (String × ℚ)

/-- A field model: association list from field name to parameter set
(embedding of `HashMap<String, HashMap<String, f32>>`). -/
abbrev FieldModel := List (String × ParamSet)

/-- Sensor readings supplied by the host each call. -/
abbrev Sensors := List (String × ℚ)

/-- `HashMap::get`: first-match association-list lookup. -/
def alookup {α : Type} : List (String × α) → String → Option α
  | [], _ => none
  | (k, v) :: rest, key => if k = key then some v else alookup rest key

/-- `HashMap::insert`: overwrite the value stored at a key, or append a new
binding when the key is absent. -/
def ainsert {α : Type} : List (String × α) → String → α → List (String × α)
  | [], key, v => [(key, v)]
  | (k, w) :: rest, key, v =>
      if k = key then (k, v) :: rest else (k, w) :: ainsert rest key v

/-- `HashMap::get_mut` followed by writing through the reference: apply `f`
to the value stored at `key`; the map is unchanged when the key is absent. -/
def aupdate {α : Type} : List (String × α) → String → (α → α) → List (String × α)
  | [], _, _ => []
  | (k, v) :: rest, key, f =>
      if k = key then (k, f v) :: rest else (k, v) :: aupdate rest key f

/-- Embedding of `execute_tension` (src/src/interpreter.rs lines 50-56).
`fields.get("generalist").unwrap()` aborts the process when the field is
absent; the abort is modelled as `none`.  On success the result is the
tension value paired with the field model handed back through the `&mut`
borrow (the body contains no mutation of `fields`). -/
def execute_tension (fields : FieldModel) (sensors : Sensors) :
    Option (ℚ × FieldModel) :=
  match alookup fields "generalist" with
  | none => none
  | some g =>
      some (|(alookup sensors "coherence").getD 0 -
              (alookup g "coherence_target").getD (1/2)|, fields)

/-- One agent's parameter update inside `execute_drift`
(src/src/interpreter.rs lines 61-63): add `tension * 0.01` to
`"coherence_target"` if present, else to `"physics_constant"` if present,
else leave the parameter set unchanged. -/
def driftStep (t : ℚ) (ps : ParamSet) : ParamSet :=
  if (alookup ps "coherence_target").isSome then
    aupdate ps "coherence_target" (fun v => v + t * (1/100))
  else if (alookup ps "physics_constant").isSome then
    aupdate ps "physics_constant" (fun v => v + t * (1/100))
  else ps

/-- One agent's parameter update inside `execute_resolve`
(src/src/interpreter.rs lines 71-73): subtract `tension * 0.005` from the
same target parameter as `driftStep`. -/
def resolveStep (t : ℚ) (ps : ParamSet) : ParamSet :=
  if (alookup ps "coherence_target").isSome then
    aupdate ps "coherence_target" (fun v => v - t * (1/200))
  else if (alookup ps "physics_constant").isSome then
    aupdate ps "physics_constant" (fun v => v - t * (1/200))
  else ps

/-- Embedding of `execute_drift` (src/src/interpreter.rs lines 58-66): for
each agent, update the field that shares the agent's name (skip silently
when absent).  The `history` argument is accepted and never read, exactly
as in the source. -/
def execute_drift (fields : FieldModel) (agents : List (String × ParamSet))
    (history : List ℚ) (t : ℚ) : FieldModel :=
  agents.foldl (fun fs a => aupdate fs a.1 (driftStep t)) fields

/-- Embedding of `execute_resolve` (src/src/interpreter.rs lines 68-76). -/
def execute_resolve (fields : FieldModel) (agents : List (String × ParamSet))
    (t : ℚ) : FieldModel :=
  agents.foldl (fun fs a => aupdate fs a.1 (resolveStep t)) fields

/-- Embedding of `execute_metaweave` (src/src/interpreter.rs lines 78-83):
when the gravity sensor reading (default `0.0`) is strictly positive, set
`fields["quantum_expert"]["gravity"] = 9.81`; the `unwrap` of a missing
`"quantum_expert"` aborts the process, modelled as `none`.  When the gate
is false the lookup is never performed and `fields` is returned as is. -/
def execute_metaweave (fields : FieldModel) (sensors : Sensors) :
    Option FieldModel :=
  if (alookup sensors "gravity_sensor").getD 0 > 0 then
    match alookup fields "quantum_expert" with
    | none => none
    | some _ =>
        some (aupdate fields "quantum_expert"
          (fun ps => ainsert ps "gravity" (981/100)))
  else
    some fields

/-- Following the spec's words (§4.3): the drift/resolve target-selection
rule — `"coherence_target"` if present, else `"physics_constant"` if
present, else no target (skip). -/
def specTarget (ps : ParamSet) : Option String :=
  if (alookup ps "coherence_target").isSome then some "coherence_target"
  else if (alookup ps "physics_constant").isSome then some "physics_constant"
  else none

/-- Common generalisation of `driftStep` and `resolveStep`: add `δ` to the
selected target parameter. -/
def genStep (δ : ℚ) (ps : ParamSet) : ParamSet :=
  if (alookup ps "coherence_target").isSome then
    aupdate ps "coherence_target" (fun v => v + δ)
  else if (alookup ps "physics_constant").isSome then
    aupdate ps "physics_constant" (fun v => v + δ)
  else ps

/-- Two-level lookup: `fields[n][k]`. -/
def lookup2 (fs : FieldModel) (n k : String) : Option ℚ :=
  (alookup fs n).bind (fun ps => alookup ps k)

/-- Number of times the parameter `fields[n][k]` is hit by a drift/resolve
pass over agents with the given names: the occurrence count of `n` among
the agent names when `k` is the selected target of field `n`, else `0`. -/
def hits (fs : FieldModel) (names : List String) (n k : String) : ℕ :=
  match alookup fs n with
  | none => 0
  | some ps => if specTarget ps = some k then names.count n else 0

/-- The shape of a field model: its field names with, for each field, its
parameter names in order. -/
def shapeOf (fs : FieldModel) : List (String × List String) :=
  fs.map (fun p => (p.1, p.2.map Prod.fst))

/-- Number of positions at which two parameter sets of equal shape differ. -/
def changedParams : ParamSet → ParamSet → ℕ
  | a :: ps, b :: qs => (if a = b then 0 else 1) + changedParams ps qs
  | _, _ => 0

/-- Total number of parameter entries at which two field models of equal
shape differ. -/
def changedTotal : FieldModel → FieldModel → ℕ
  | a :: fs, b :: gs => changedParams a.2 b.2 + changedTotal fs gs
  | _, _ => 0

/-! Spec-modelled parser.  The repository's `parse_weave` delegates the
grammar to a pest file `weavelang.pest` (declared by
`#[grammar = "weavelang.pest"]` in src/src/interpreter.rs) that is not
among the source files; only the parse-tree walk (lines 17-45) is.  The
grammar below is therefore modelled from the spec (§4.1, §6): a file is a
sequence of field blocks `ident \x7b (ident = value)* \x7d`, idents are
letters/digits/underscore not starting with a digit, structural mismatch
is fatal, and a value token that fails numeric conversion degrades to `0`
(§7 lenient-literal policy), mirroring `parse::<f32>().unwrap_or(0.0)` at
line 32. -/

/-- Token alphabet of the Weave surface syntax. -/
inductive Tok
  | lbrace
  | rbrace
  | eq
  | word (s : String)
deriving DecidableEq

/-- Emit the pending word accumulator (characters are held reversed). -/
def flushAcc (acc : List Char) : List Tok :=
  if acc.isEmpty then [] else [Tok.word (String.mk acc.reverse)]

/-- Tokeniser: whitespace separates tokens; the two braces and `=` are
single-character tokens. -/
def tokChars : List Char → List Char → List Tok
  | [], acc => flushAcc acc
  | c :: rest, acc =>
      if c.isWhitespace then flushAcc acc ++ tokChars rest []
      else if c = Char.ofNat 123 then flushAcc acc ++ Tok.lbrace :: tokChars rest []
      else if c = Char.ofNat 125 then flushAcc acc ++ Tok.rbrace :: tokChars rest []
      else if c = '=' then flushAcc acc ++ Tok.eq :: tokChars rest []
      else tokChars rest (c :: acc)

/-- Turn Weave source text into tokens. -/
def tokenize (s : String) : List Tok :=
  tokChars s.data []

/-- Character class of identifier tails: letters, digits, underscore. -/
def isIdentChar (c : Char) : Bool :=
  c.isAlphanum || c = '_'

/-- Identifier: letters/digits/underscore, not starting with a digit. -/
def isIdent (s : String) : Bool :=
  match s.data with
  | [] => false
  | c :: rest => (c.isAlpha || c = '_') && rest.all isIdentChar

/-- Value of a nonempty all-digit character run. -/
def digitsToNat (cs : List Char) : Option ℕ :=
  if cs.isEmpty || !(cs.all Char.isDigit) then none
  else some (cs.foldl (fun n c => 10 * n + (c.toNat - 48)) 0)

/-- Unsigned decimal literal, optionally with a fractional part. -/
def numParseUnsigned (cs : List Char) : Option ℚ :=
  match cs.span (fun c => c != '.') with
  | (intPart, []) => (digitsToNat intPart).map (fun n => (n : ℚ))
  | (intPart, _ :: fracPart) =>
      match digitsToNat intPart, digitsToNat fracPart with
      | some i, some f => some ((i : ℚ) + (f : ℚ) / (10 : ℚ) ^ fracPart.length)
      | _, _ => none

/-- Signed decimal literal (numeric conversion of a value token); `none`
models a failed conversion, which the builder defaults to `0`. -/
def numParse (s : String) : Option ℚ :=
  match s.data with
  | '-' :: rest => (numParseUnsigned rest).map (fun q => -q)
  | '+' :: rest => numParseUnsigned rest
  | cs => numParseUnsigned cs

/-- States of the left-to-right structural parse of the token stream. -/
inductive PState
  | top (fs : FieldModel)
  | afterName (fs : FieldModel) (fname : String)
  | inField (fs : FieldModel) (fname : String) (ps : ParamSet)
  | afterParam (fs : FieldModel) (fname : String) (ps : ParamSet) (p : String)
  | afterEq (fs : FieldModel) (fname : String) (ps : ParamSet) (p : String)
deriving DecidableEq

/-- One token of structural parsing.  Any token that does not fit the
file/field/field_param grammar is a fatal syntax error; a value token in
value position always succeeds, with failed numeric conversion degraded
to `0` exactly as the builder's `unwrap_or(0.0)` does. -/
def pstep : PState → Tok → Except String PState
  | .top fs, .word w =>
      if isIdent w then .ok (.afterName fs w) else .error "expected field name"
  | .top _, _ => .error "expected field name"
  | .afterName fs f, .lbrace => .ok (.inField fs f [])
  | .afterName _ _, _ => .error "expected opening brace"
  | .inField fs f ps, .word w =>
      if isIdent w then .ok (.afterParam fs f ps w)
      else .error "expected parameter name"
  | .inField fs f ps, .rbrace => .ok (.top (ainsert fs f ps))
  | .inField _ _ _, _ => .error "expected parameter or closing brace"
  | .afterParam fs f ps p, .eq => .ok (.afterEq fs f ps p)
  | .afterParam _ _ _ _, _ => .error "expected equals sign"
  | .afterEq fs f ps p, .word w =>
      .ok (.inField fs f (ainsert ps p ((numParse w).getD 0)))
  | .afterEq _ _ _ _, _ => .error "expected value"

/-- Run the structural parse over a token stream. -/
def runPTok : PState → List Tok → Except String PState
  | st, [] => .ok st
  | st, t :: ts =>
      match pstep st t with
      | .ok st' => runPTok st' ts
      | .error e => .error e

/-- Parse a token stream into a field model; the stream must end at the
top level (every field block closed). -/
def parseToks (toks : List Tok) : Except String FieldModel :=
  match runPTok (.top []) toks with
  | .ok (.top fs) => .ok fs
  | .ok _ => .error "unexpected end of input"
  | .error e => .error e

/-- Modelled from the spec: `parse_weave` on in-memory source text (§4.1,
§6 place file I/O with the caller), combining the spec-modelled grammar
with the builder walk of src/src/interpreter.rs lines 17-45. -/
def parse_weave (src : String) : Except String FieldModel :=
  parseToks (tokenize src)

/-! Boundary layer (src/src/weavelang_godot.rs).  The aliases below mirror
the Rust module path `crate::interpreter::...` through which the boundary
layer names the core operators (weavelang_godot.rs line 6). -/

/-- Alias for the core tension operator under its module path. -/
alias interpreter.execute_tension := execute_tension

/-- Alias for the core drift operator under its module path. -/
alias interpreter.execute_drift := execute_drift

/-- Alias for the core resolve operator under its module path. -/
alias interpreter.execute_resolve := execute_resolve

/-- Alias for the core metaweave operator under its module path. -/
alias interpreter.execute_metaweave := execute_metaweave

/-- The host-facing state object (`struct WeaveLang`, lines 15-18): the
field model plus the append-only tension history. -/
structure WeaveLang where
  fields : FieldModel
  tension_history : List ℚ
deriving DecidableEq

/-- `WeaveLang::init` (lines 22-27): empty model, empty history. -/
def WeaveLang.init : WeaveLang :=
  { fields := [], tension_history := [] }

/-- `WeaveLang::load_weave` (lines 33-46): on parse success replace the
field model (history untouched) and report `true`; on failure leave the
state unchanged and report `false`. -/
def WeaveLang.load_weave (st : WeaveLang) (src : String) : WeaveLang × Bool :=
  match parse_weave src with
  | .ok fs => ({ st with fields := fs }, true)
  | .error _ => (st, false)

/-- `WeaveLang::execute_tension` (lines 49-61): call the core operator and
append the returned tension to the history.  The panic of the core on a
missing `"generalist"` field (modelled `none`) aborts before any push. -/
def WeaveLang.execute_tension (st : WeaveLang) (sensors : Sensors) :
    Option (ℚ × WeaveLang) :=
  match interpreter.execute_tension st.fields sensors with
  | none => none
  | some (t, fs) =>
      some (t, { fields := fs, tension_history := st.tension_history ++ [t] })

/-- `WeaveLang::execute_drift` (lines 64-89): run the core drift with the
stored history; the history itself is not modified. -/
def WeaveLang.execute_drift (st : WeaveLang)
    (agents : List (String × ParamSet)) (t : ℚ) : WeaveLang :=
  { st with fields := interpreter.execute_drift st.fields agents st.tension_history t }

/-- `WeaveLang::execute_resolve` (lines 92-117). -/
def WeaveLang.execute_resolve (st : WeaveLang)
    (agents : List (String × ParamSet)) (t : ℚ) : WeaveLang :=
  { st with fields := interpreter.execute_resolve st.fields agents t }

/-- `WeaveLang::execute_metaweave` (lines 120-130); the core's panic on a
missing `"quantum_expert"` field propagates as `none`. -/
def WeaveLang.execute_metaweave (st : WeaveLang) (sensors : Sensors) :
    Option WeaveLang :=
  (interpreter.execute_metaweave st.fields sensors).map
    (fun fs => { st with fields := fs })

/-- A host-driven session step: one boundary-layer call. -/
inductive WOp
  | load (src : String)
  | tension (sensors : Sensors)
  | drift (agents : List (String × ParamSet)) (t : ℚ)
  | resolve (agents : List (String × ParamSet)) (t : ℚ)
  | metaweave (sensors : Sensors)

/-- Execute one boundary call; `none` is a process abort. -/
def runOp (st : WeaveLang) : WOp → Option WeaveLang
  | .load src => some (WeaveLang.load_weave st src).1
  | .tension sensors => (WeaveLang.execute_tension st sensors).map Prod.snd
  | .drift agents t => some (WeaveLang.execute_drift st agents t)
  | .resolve agents t => some (WeaveLang.execute_resolve st agents t)
  | .metaweave sensors => WeaveLang.execute_metaweave st sensors

/-- Execute a sequence of boundary calls. -/
def runSession (st : WeaveLang) : List WOp → Option WeaveLang
  | [] => some st
  | op :: ops =>
      match runOp st op with
      | none => none
      | some st' => runSession st' ops

/-- Number of `tension` calls in a session (in a completed session each of
them succeeded and is exactly the successful tension-call count). -/
def countTension : List WOp → ℕ
  | [] => 0
  | WOp.tension _ :: ops => 1 + countTension ops
  | _ :: ops => countTension ops

/-! Basic lemmas about the association-list operations. -/

theorem alookup_aupdate_self {α : Type} (l : List (String × α)) (k : String)
    (f : α → α) : alookup (aupdate l k f) k = (alookup l k).map f := by
  induction l with
  | nil => simp [alookup, aupdate]
  | cons hd tl ih =>
      obtain ⟨k', v⟩ := hd
      by_cases h : k' = k
      · simp [alookup, aupdate, h]
      · simp [alookup, aupdate, h, ih]

theorem alookup_aupdate_ne {α : Type} (l : List (String × α)) (k k' : String)
    (f : α → α) (h : k' ≠ k) : alookup (aupdate l k f) k' = alookup l k' := by
  induction l with
  | nil => simp [alookup, aupdate]
  | cons hd tl ih =>
      obtain ⟨k₀, v⟩ := hd
      by_cases h0 : k₀ = k
      · subst h0
        simp [alookup, aupdate, Ne.symm h]
      · by_cases h1 : k₀ = k'
        · simp [alookup, aupdate, h0, h1, h]
        · simp [alookup, aupdate, h0, h1, ih]

theorem alookup_ainsert_self {α : Type} (l : List (String × α)) (k : String)
    (v : α) : alookup (ainsert l k v) k = some v := by
  induction l with
  | nil => simp [alookup, ainsert]
  | cons hd tl ih =>
      obtain ⟨k₀, w⟩ := hd
      by_cases h0 : k₀ = k
      · simp [alookup, ainsert, h0]
      · simp [alookup, ainsert, h0, ih]

theorem alookup_ainsert_ne {α : Type} (l : List (String × α)) (k k' : String)
    (v : α) (h : k' ≠ k) : alookup (ainsert l k v) k' = alookup l k' := by
  induction l with
  | nil => simp [alookup, ainsert, Ne.symm h]
  | cons hd tl ih =>
      obtain ⟨k₀, w⟩ := hd
      by_cases h0 : k₀ = k
      · subst h0
        simp [alookup, ainsert, Ne.symm h]
      · by_cases h1 : k₀ = k'
        · simp [alookup, ainsert, h0, h1, h]
        · simp [alookup, ainsert, h0, h1, ih]

theorem aupdate_keys {α : Type} (l : List (String × α)) (k : String)
    (f : α → α) : (aupdate l k f).map Prod.fst = l.map Prod.fst := by
  induction l with
  | nil => simp [aupdate]
  | cons hd tl ih =>
      obtain ⟨k₀, v⟩ := hd
      by_cases h0 : k₀ = k
      · simp [aupdate, h0]
      · simp [aupdate, h0, ih]

theorem aupdate_absent {α : Type} (l : List (String × α)) (k : String)
    (f : α → α) (h : alookup l k = none) : aupdate l k f = l := by
  induction l with
  | nil => simp [aupdate]
  | cons hd tl ih =>
      obtain ⟨k₀, v⟩ := hd
      by_cases h0 : k₀ = k
      · simp [alookup, h0] at h
      · simp [alookup, h0] at h
        simp [aupdate, h0, ih h]

theorem aupdate_comm {α : Type} (l : List (String × α)) (k k' : String)
    (f g : α → α) (h : k ≠ k') :
    aupdate (aupdate l k f) k' g = aupdate (aupdate l k' g) k f := by
  induction l with
  | nil => simp [aupdate]
  | cons hd tl ih =>
      obtain ⟨k₀, v⟩ := hd
      by_cases h0 : k₀ = k
      · subst h0
        simp [aupdate, h, if_pos rfl]
      · by_cases h1 : k₀ = k'
        · subst h1
          simp [aupdate, h0, Ne.symm h, if_pos rfl]
        · simp [aupdate, h0, h1, ih]

/-! Claim theorems for the four update operators. -/

/-- C1: for every field model containing a `"generalist"` field and every
sensor map, `execute_tension` returns the absolute value of
(`sensors["coherence"]`, default `0`) minus
(`fields["generalist"]["coherence_target"]`, default `1/2`), and hands the
field model back unchanged. -/
theorem tension_formula_and_no_mutation (fields : FieldModel)
    (sensors : Sensors) (g : ParamSet)
    (hg : alookup fields "generalist" = some g) :
    execute_tension fields sensors =
      some (|(alookup sensors "coherence").getD 0 -
             (alookup g "coherence_target").getD (1/2)|, fields) := by
  simp [execute_tension, hg]

/-- Witness for C1: the spec's own example, `fields = ("generalist" with
`coherence_target = 2/5`)` and `sensors = ("coherence" = 9/10)`, giving
tension `1/2` and an unchanged model. -/
theorem tension_formula_and_no_mutation_witness :
    execute_tension [("generalist", [("coherence_target", (2 : ℚ)/5)])]
        [("coherence", (9 : ℚ)/10)] =
      some ((1 : ℚ)/2, [("generalist", [("coherence_target", (2 : ℚ)/5)])]) := by
  have h := tension_formula_and_no_mutation
    [("generalist", [("coherence_target", (2 : ℚ)/5)])]
    [("coherence", (9 : ℚ)/10)] [("coherence_target", (2 : ℚ)/5)] rfl
  norm_num [alookup] at h
  convert h using 3
  norm_num [abs]

/-- C2 (code evaluation at the failing input): on a model with no
`"generalist"` field, `execute_tension` reaches the `unwrap()` panic —
modelled as `none`, i.e. the process aborts instead of returning a typed
`MissingFieldError`; likewise `execute_metaweave` with a positive gravity
reading and no `"quantum_expert"` field. -/
theorem missing_field_aborts_process :
    execute_tension [] [] = none ∧
      execute_metaweave [] [("gravity_sensor", (1 : ℚ))] = none := by
  constructor
  · rfl
  · norm_num [execute_metaweave, alookup]

/-- C9: whenever the gravity reading (default `0`) is not strictly
positive, `execute_metaweave` returns the field model unchanged and never
performs the `"quantum_expert"` lookup — in particular it succeeds even on
a model with no `"quantum_expert"` field. -/
theorem metaweave_gate_skips_lookup (fields : FieldModel) (sensors : Sensors)
    (h : ¬ 0 < (alookup sensors "gravity_sensor").getD 0) :
    execute_metaweave fields sensors = some fields := by
  simp [execute_metaweave, h]

/-- Witness for C9: empty sensor map (gravity absent) and a model with no
`"quantum_expert"` field: metaweave succeeds and changes nothing. -/
theorem metaweave_gate_skips_lookup_witness :
    execute_metaweave [] [] = some [] :=
  metaweave_gate_skips_lookup [] [] (by norm_num [alookup])

/-- C5: on a model containing `"quantum_expert"`: if the gravity reading
(default `0`) is strictly positive, metaweave succeeds and sets
`fields["quantum_expert"]["gravity"]` to `9.81 = 981/100` (inserting or
overwriting), leaving every other parameter of that field and every other
field untouched; if the reading is not strictly positive, the model is
returned completely unchanged. -/
theorem metaweave_sets_gravity (fields : FieldModel) (sensors : Sensors)
    (q : ParamSet) (hq : alookup fields "quantum_expert" = some q) :
    (0 < (alookup sensors "gravity_sensor").getD 0 →
      ∃ fs', execute_metaweave fields sensors = some fs' ∧
        alookup fs' "quantum_expert" = some (ainsert q "gravity" (981/100)) ∧
        alookup (ainsert q "gravity" (981/100)) "gravity" = some (981/100) ∧
        (∀ k, k ≠ "gravity" →
          alookup (ainsert q "gravity" (981/100)) k = alookup q k) ∧
        (∀ m, m ≠ "quantum_expert" → alookup fs' m = alookup fields m)) ∧
    (¬ 0 < (alookup sensors "gravity_sensor").getD 0 →
      execute_metaweave fields sensors = some fields) := by
  constructor
  · intro hpos
    refine ⟨aupdate fields "quantum_expert" (fun ps => ainsert ps "gravity" (981/100)),
      ?_, ?_, ?_, ?_, ?_⟩
    · simp [execute_metaweave, hpos, hq]
    · rw [alookup_aupdate_self, hq]
      rfl
    · exact alookup_ainsert_self q "gravity" (981/100)
    · intro k hk
      exact alookup_ainsert_ne q "gravity" k (981/100) hk
    · intro m hm
      exact alookup_aupdate_ne fields "quantum_expert" m _ hm
  · intro hneg
    simp [execute_metaweave, hneg]

/-- Witness for C5: model `quantum_expert = (physics_constant = 1)` and a
positive gravity reading: `gravity` is inserted as `981/100` and the
pre-existing parameter is untouched. -/
theorem metaweave_sets_gravity_witness :
    execute_metaweave [("quantum_expert", [("physics_constant", (1 : ℚ))])]
        [("gravity_sensor", (1 : ℚ))] =
      some [("quantum_expert",
        [("physics_constant", (1 : ℚ)), ("gravity", 981/100)])] ∧
    alookup [("physics_constant", (1 : ℚ)), ("gravity", (981 : ℚ)/100)]
        "gravity" = some (981/100) ∧
    alookup [("physics_constant", (1 : ℚ)), ("gravity", (981 : ℚ)/100)]
        "physics_constant" =
      alookup [("physics_constant", (1 : ℚ))] "physics_constant" := by
  obtain ⟨fs', h1, h2, h3, h4, h5⟩ :=
    (metaweave_sets_gravity [("quantum_expert", [("physics_constant", (1 : ℚ))])]
      [("gravity_sensor", (1 : ℚ))] [("physics_constant", (1 : ℚ))] rfl).1
      (by norm_num [alookup])
  have hconc : execute_metaweave
      [("quantum_expert", [("physics_constant", (1 : ℚ))])]
      [("gravity_sensor", (1 : ℚ))] =
      some [("quantum_expert",
        [("physics_constant", (1 : ℚ)), ("gravity", 981/100)])] := by
    norm_num [execute_metaweave, alookup, aupdate, ainsert]
    decide
  refine ⟨hconc, ?_, ?_⟩
  · have he : ainsert [("physics_constant", (1 : ℚ))] "gravity" (981/100) =
        [("physics_constant", (1 : ℚ)), ("gravity", (981 : ℚ)/100)] := by
      norm_num [ainsert]
      decide
    rw [← he]
    exact h3
  · have he : ainsert [("physics_constant", (1 : ℚ))] "gravity" (981/100) =
        [("physics_constant", (1 : ℚ)), ("gravity", (981 : ℚ)/100)] := by
      norm_num [ainsert]
      decide
    rw [← he]
    exact h4 "physics_constant" (by decide)

/-! Lemmas relating `driftStep`/`resolveStep` to the shared targeting rule. -/

theorem driftStep_eq_genStep (t : ℚ) : driftStep t = genStep (t * (1/100)) :=
  rfl

theorem resolveStep_eq_genStep (t : ℚ) :
    resolveStep t = genStep (-(t * (1/200))) := by
  funext ps
  simp only [resolveStep, genStep, sub_eq_add_neg]

theorem specTarget_genStep (δ : ℚ) (ps : ParamSet) :
    specTarget (genStep δ ps) = specTarget ps := by
  by_cases hct : (alookup ps "coherence_target").isSome
  · have h1 : (alookup (aupdate ps "coherence_target" (fun v => v + δ))
        "coherence_target").isSome := by
      rw [alookup_aupdate_self]
      simpa using hct
    simp [genStep, specTarget, hct, h1]
  · by_cases hpc : (alookup ps "physics_constant").isSome
    · have hne : ("coherence_target" : String) ≠ "physics_constant" := by decide
      have h1 : alookup (aupdate ps "physics_constant" (fun v => v + δ))
          "coherence_target" = alookup ps "coherence_target" :=
        alookup_aupdate_ne ps "physics_constant" "coherence_target" _ hne
      have h2 : (alookup (aupdate ps "physics_constant" (fun v => v + δ))
          "physics_constant").isSome := by
        rw [alookup_aupdate_self]
        simpa using hpc
      simp [genStep, specTarget, hct, hpc, h1, h2]
    · simp [genStep, specTarget, hct, hpc]

theorem alookup_genStep_target (δ : ℚ) (ps : ParamSet) (k : String)
    (hk : specTarget ps = some k) :
    alookup (genStep δ ps) k = (alookup ps k).map (fun v => v + δ) := by
  by_cases hct : (alookup ps "coherence_target").isSome
  · have hk' : k = "coherence_target" := by
      simp [specTarget, hct] at hk
      exact hk.symm
    subst hk'
    simp [genStep, hct, alookup_aupdate_self]
  · by_cases hpc : (alookup ps "physics_constant").isSome
    · have hk' : k = "physics_constant" := by
        simp [specTarget, hct, hpc] at hk
        exact hk.symm
      subst hk'
      simp [genStep, hct, hpc, alookup_aupdate_self]
    · simp [specTarget, hct, hpc] at hk

theorem alookup_genStep_other (δ : ℚ) (ps : ParamSet) (k : String)
    (hk : specTarget ps ≠ some k) :
    alookup (genStep δ ps) k = alookup ps k := by
  by_cases hct : (alookup ps "coherence_target").isSome
  · have hne : k ≠ "coherence_target" := by
      intro h
      subst h
      simp [specTarget, hct] at hk
    simp [genStep, hct, alookup_aupdate_ne ps "coherence_target" k _ hne]
  · by_cases hpc : (alookup ps "physics_constant").isSome
    · have hne : k ≠ "physics_constant" := by
        intro h
        subst h
        simp [specTarget, hct, hpc] at hk
      simp [genStep, hct, hpc, alookup_aupdate_ne ps "physics_constant" k _ hne]
    · simp [genStep, hct, hpc]

theorem hits_nil (fs : FieldModel) (n k : String) :
    hits fs ([] : List String) n k = 0 := by
  cases hfs : alookup fs n <;> simp [hits, hfs]

theorem genRun_lookup2 (δ : ℚ) (agents : List (String × ParamSet)) :
    ∀ (fs : FieldModel) (n k : String) (v : ℚ),
      lookup2 fs n k = some v →
      lookup2 (agents.foldl (fun fs a => aupdate fs a.1 (genStep δ)) fs) n k =
        some (v + (hits fs (agents.map Prod.fst) n k : ℚ) * δ) := by
  induction agents with
  | nil =>
      intro fs n k v hv
      simpa [hits_nil] using hv
  | cons a rest ih =>
      intro fs n k v hv
      obtain ⟨ps, hfs, hpv⟩ : ∃ ps, alookup fs n = some ps ∧ alookup ps k = some v := by
        cases hfs : alookup fs n with
        | none => simp [lookup2, hfs] at hv
        | some ps => exact ⟨ps, rfl, by simpa [lookup2, hfs] using hv⟩
      by_cases han : a.1 = n
      · have hfs1 : alookup (aupdate fs a.1 (genStep δ)) n = some (genStep δ ps) := by
          rw [han, alookup_aupdate_self, hfs]
          rfl
        by_cases hT : specTarget ps = some k
        · have hlk : alookup (genStep δ ps) k = some (v + δ) := by
            rw [alookup_genStep_target δ ps k hT, hpv]
            rfl
          have hrec := ih (aupdate fs a.1 (genStep δ)) n k (v + δ)
            (by simp [lookup2, hfs1, hlk])
          have hcount : hits (aupdate fs a.1 (genStep δ)) (rest.map Prod.fst) n k =
              (rest.map Prod.fst).count n := by
            simp [hits, hfs1, specTarget_genStep, hT]
          have hcount2 : hits fs ((a :: rest).map Prod.fst) n k =
              (rest.map Prod.fst).count n + 1 := by
            simp [hits, hfs, hT, han, List.count_cons]
          rw [List.foldl_cons]
          rw [hrec, hcount, hcount2]
          congr 1
          push_cast
          ring
        · have hlk : alookup (genStep δ ps) k = some v := by
            rw [alookup_genStep_other δ ps k hT, hpv]
          have hrec := ih (aupdate fs a.1 (genStep δ)) n k v
            (by simp [lookup2, hfs1, hlk])
          have hcount : hits (aupdate fs a.1 (genStep δ)) (rest.map Prod.fst) n k = 0 := by
            simp [hits, hfs1, specTarget_genStep, hT]
          have hcount2 : hits fs ((a :: rest).map Prod.fst) n k = 0 := by
            simp [hits, hfs, hT]
          rw [List.foldl_cons]
          rw [hrec, hcount, hcount2]
      · have hfs1 : alookup (aupdate fs a.1 (genStep δ)) n = alookup fs n :=
          alookup_aupdate_ne fs a.1 n _ (Ne.symm han)
        have hrec := ih (aupdate fs a.1 (genStep δ)) n k v
          (by simp [lookup2, hfs1, hfs, hpv])
        have hcount : hits (aupdate fs a.1 (genStep δ)) (rest.map Prod.fst) n k =
            hits fs (rest.map Prod.fst) n k := by
          simp only [hits, hfs1]
        have hcount2 : hits fs ((a :: rest).map Prod.fst) n k =
            hits fs (rest.map Prod.fst) n k := by
          cases hfs2 : alookup fs n with
          | none => simp [hits, hfs2]
          | some ps2 =>
              simp [hits, hfs2, List.count_cons, han]
        rw [List.foldl_cons]
        rw [hrec, hcount, hcount2]

/-- C3: drift is the fold of one per-agent step over the agents, and the
step behaves as specified: an agent whose name matches no field is skipped
with no change; on a matching field, `coherence_target` is incremented by
`t * 1/100` when present (all other parameters, `physics_constant`
included, unchanged), else `physics_constant` when present, else the field
is left unchanged; fields with other names are never touched. -/
theorem drift_per_agent_rule (fields : FieldModel)
    (agents : List (String × ParamSet)) (history : List ℚ) (t : ℚ) :
    execute_drift fields agents history t =
      agents.foldl (fun fs a => aupdate fs a.1 (driftStep t)) fields ∧
    (∀ name, alookup fields name = none →
      aupdate fields name (driftStep t) = fields) ∧
    (∀ name ps, alookup fields name = some ps →
      alookup (aupdate fields name (driftStep t)) name = some (driftStep t ps) ∧
      ∀ m, m ≠ name →
        alookup (aupdate fields name (driftStep t)) m = alookup fields m) ∧
    (∀ ps : ParamSet, alookup ps "coherence_target" = none →
      alookup ps "physics_constant" = none → driftStep t ps = ps) ∧
    (∀ (ps : ParamSet) (v : ℚ), alookup ps "coherence_target" = some v →
      alookup (driftStep t ps) "coherence_target" = some (v + t * (1/100)) ∧
      ∀ k, k ≠ "coherence_target" → alookup (driftStep t ps) k = alookup ps k) ∧
    (∀ (ps : ParamSet) (v : ℚ), alookup ps "coherence_target" = none →
      alookup ps "physics_constant" = some v →
      alookup (driftStep t ps) "physics_constant" = some (v + t * (1/100)) ∧
      ∀ k, k ≠ "physics_constant" → alookup (driftStep t ps) k = alookup ps k) := by
  refine ⟨rfl, ?_, ?_, ?_, ?_, ?_⟩
  · intro name hname
    exact aupdate_absent fields name _ hname
  · intro name ps hps
    constructor
    · rw [alookup_aupdate_self, hps]
      rfl
    · intro m hm
      exact alookup_aupdate_ne fields name m _ hm
  · intro ps h1 h2
    simp [driftStep, h1, h2]
  · intro ps v hv
    constructor
    · simp [driftStep, hv, alookup_aupdate_self]
    · intro k hk
      simp [driftStep, hv, alookup_aupdate_ne ps "coherence_target" k _ hk]
  · intro ps v h1 hv
    constructor
    · simp [driftStep, h1, hv, alookup_aupdate_self]
    · intro k hk
      simp [driftStep, h1, hv, alookup_aupdate_ne ps "physics_constant" k _ hk]

/-- Witness for C3: a field holding both targetable parameters; drift adds
`1 * 1/100` to `coherence_target` and leaves `physics_constant` at `2`. -/
theorem drift_per_agent_rule_witness :
    alookup (driftStep 1 [("coherence_target", (1 : ℚ)),
        ("physics_constant", (2 : ℚ))]) "coherence_target" =
      some (1 + 1 * (1/100)) ∧
    alookup (driftStep 1 [("coherence_target", (1 : ℚ)),
        ("physics_constant", (2 : ℚ))]) "physics_constant" = some 2 := by
  have h := (drift_per_agent_rule [] [] [] 1).2.2.2.2.1
    [("coherence_target", (1 : ℚ)), ("physics_constant", (2 : ℚ))] 1 rfl
  refine ⟨h.1, ?_⟩
  rw [h.2 "physics_constant" (by decide)]
  rfl

/-- C4: drift and resolve share one target-selection-and-skip rule
(`specTarget`), differing only in the applied delta (`+ t/100` versus
`- t/200`); consequently, for identical fields, agents and tension, every
parameter value satisfies: the amount drift added equals exactly twice
the amount resolve subtracted. -/
theorem drift_adds_twice_resolve (fields : FieldModel)
    (agents : List (String × ParamSet)) (history : List ℚ) (t : ℚ) :
    (∀ ps, driftStep t ps = (match specTarget ps with
        | some k => aupdate ps k (fun v => v + t * (1/100))
        | none => ps)) ∧
    (∀ ps, resolveStep t ps = (match specTarget ps with
        | some k => aupdate ps k (fun v => v - t * (1/200))
        | none => ps)) ∧
    (∀ (n k : String) (v vd vr : ℚ),
      lookup2 fields n k = some v →
      lookup2 (execute_drift fields agents history t) n k = some vd →
      lookup2 (execute_resolve fields agents t) n k = some vr →
      vd - v = 2 * (v - vr)) := by
  refine ⟨?_, ?_, ?_⟩
  · intro ps
    by_cases hct : (alookup ps "coherence_target").isSome
    · simp [driftStep, specTarget, hct]
    · by_cases hpc : (alookup ps "physics_constant").isSome
      · simp [driftStep, specTarget, hct, hpc]
      · simp [driftStep, specTarget, hct, hpc]
  · intro ps
    by_cases hct : (alookup ps "coherence_target").isSome
    · simp [resolveStep, specTarget, hct]
    · by_cases hpc : (alookup ps "physics_constant").isSome
      · simp [resolveStep, specTarget, hct, hpc]
      · simp [resolveStep, specTarget, hct, hpc]
  · intro n k v vd vr hv hd hr
    have hd2 : lookup2 (execute_drift fields agents history t) n k =
        some (v + (hits fields (agents.map Prod.fst) n k : ℚ) * (t * (1/100))) :=
      genRun_lookup2 (t * (1/100)) agents fields n k v hv
    have he : execute_resolve fields agents t =
        agents.foldl (fun fs a => aupdate fs a.1 (genStep (-(t * (1/200))))) fields := by
      simp only [execute_resolve, resolveStep_eq_genStep]
    have hr2 : lookup2 (execute_resolve fields agents t) n k =
        some (v + (hits fields (agents.map Prod.fst) n k : ℚ) * (-(t * (1/200)))) := by
      rw [he]
      exact genRun_lookup2 (-(t * (1/200))) agents fields n k v hv
    have hvd : vd = v + (hits fields (agents.map Prod.fst) n k : ℚ) * (t * (1/100)) :=
      Option.some_inj.mp (hd.symm.trans hd2)
    have hvr : vr = v + (hits fields (agents.map Prod.fst) n k : ℚ) * (-(t * (1/200))) :=
      Option.some_inj.mp (hr.symm.trans hr2)
    rw [hvd, hvr]
    ring

/-- Witness for C4: one agent, one field with `coherence_target = 1`,
tension `1`: drift lands on `101/100`, resolve on `199/200`, and the drift
delta `1/100` is twice the resolve delta `1/200`. -/
theorem drift_adds_twice_resolve_witness :
    (101 : ℚ)/100 - 1 = 2 * (1 - 199/200) := by
  have h := (drift_adds_twice_resolve [("a", [("coherence_target", (1 : ℚ))])]
    [("a", ([] : ParamSet))] [] 1).2.2 "a" "coherence_target" 1 (101/100) (199/200)
  apply h
  · rfl
  · norm_num [lookup2, execute_drift, driftStep, alookup, aupdate]
  · norm_num [lookup2, execute_resolve, resolveStep, alookup, aupdate]

/-- C8: the field model drift produces is fully determined by the input
model, the tension and the set of agent names: two calls agreeing on those
but differing in iteration order, history and agent property values give
identical models. -/
theorem drift_determined_by_names (fields : FieldModel) (t : ℚ)
    (agents₁ agents₂ : List (String × ParamSet)) (h₁ h₂ : List ℚ)
    (hn₁ : (agents₁.map Prod.fst).Nodup) (hn₂ : (agents₂.map Prod.fst).Nodup)
    (hset : ∀ n, n ∈ agents₁.map Prod.fst ↔ n ∈ agents₂.map Prod.fst) :
    execute_drift fields agents₁ h₁ t = execute_drift fields agents₂ h₂ t := by
  have hperm : List.Perm (agents₁.map Prod.fst) (agents₂.map Prod.fst) :=
    (List.perm_ext_iff_of_nodup hn₁ hn₂).mpr hset
  have comm : ∀ x ∈ agents₁.map Prod.fst, ∀ y ∈ agents₁.map Prod.fst,
      ∀ z : FieldModel,
        aupdate (aupdate z x (driftStep t)) y (driftStep t) =
          aupdate (aupdate z y (driftStep t)) x (driftStep t) := by
    intro x _ y _ z
    by_cases hxy : x = y
    · rw [hxy]
    · exact aupdate_comm z x y _ _ hxy
  have hfold : (agents₁.map Prod.fst).foldl
      (fun fs n => aupdate fs n (driftStep t)) fields =
      (agents₂.map Prod.fst).foldl
      (fun fs n => aupdate fs n (driftStep t)) fields :=
    hperm.foldl_eq' comm fields
  have e₁ : execute_drift fields agents₁ h₁ t =
      (agents₁.map Prod.fst).foldl (fun fs n => aupdate fs n (driftStep t)) fields := by
    rw [execute_drift, List.foldl_map]
  have e₂ : execute_drift fields agents₂ h₂ t =
      (agents₂.map Prod.fst).foldl (fun fs n => aupdate fs n (driftStep t)) fields := by
    rw [execute_drift, List.foldl_map]
  rw [e₁, e₂]
  exact hfold

/-- Witness for C8: same agent-name set `("a", "b")` in the two calls, but
different order, different property maps and different histories; the two
resulting models coincide. -/
theorem drift_determined_by_names_witness :
    execute_drift [("a", [("coherence_target", (0 : ℚ))])]
        [("a", [("foo", (5 : ℚ))]), ("b", [])] [1, 2] 1 =
      execute_drift [("a", [("coherence_target", (0 : ℚ))])]
        [("b", [("bar", (7 : ℚ))]), ("a", [])] [] 1 :=
  drift_determined_by_names [("a", [("coherence_target", (0 : ℚ))])] 1
    [("a", [("foo", (5 : ℚ))]), ("b", [])]
    [("b", [("bar", (7 : ℚ))]), ("a", [])] [1, 2] []
    (by decide) (by decide) (fun n => by simp [or_comm])

/-! Frame lemmas for C10. -/

theorem genStep_keys (δ : ℚ) (ps : ParamSet) :
    (genStep δ ps).map Prod.fst = ps.map Prod.fst := by
  by_cases hct : (alookup ps "coherence_target").isSome
  · simp [genStep, hct, aupdate_keys]
  · by_cases hpc : (alookup ps "physics_constant").isSome
    · simp [genStep, hct, hpc, aupdate_keys]
    · simp [genStep, hct, hpc]

theorem shapeOf_aupdate (fs : FieldModel) (n : String)
    (g : ParamSet → ParamSet)
    (hg : ∀ ps, (g ps).map Prod.fst = ps.map Prod.fst) :
    shapeOf (aupdate fs n g) = shapeOf fs := by
  induction fs with
  | nil => simp [aupdate]
  | cons hd tl ih =>
      obtain ⟨k₀, ps⟩ := hd
      by_cases h0 : k₀ = n
      · simp [aupdate, shapeOf, h0, hg]
      · simpa [aupdate, shapeOf, h0] using ih

theorem shapeOf_genFold (δ : ℚ) (agents : List (String × ParamSet)) :
    ∀ fs : FieldModel,
      shapeOf (agents.foldl (fun fs a => aupdate fs a.1 (genStep δ)) fs) =
        shapeOf fs := by
  induction agents with
  | nil => intro fs; rfl
  | cons a rest ih =>
      intro fs
      rw [List.foldl_cons, ih (aupdate fs a.1 (genStep δ)),
        shapeOf_aupdate fs a.1 (genStep δ) (genStep_keys δ)]

theorem changedParams_self (ps : ParamSet) : changedParams ps ps = 0 := by
  induction ps with
  | nil => rfl
  | cons hd tl ih => simpa [changedParams] using ih

theorem changedParams_aupdate_le (ps : ParamSet) (k : String) (f : ℚ → ℚ) :
    changedParams ps (aupdate ps k f) ≤ 1 := by
  induction ps with
  | nil => simp [aupdate, changedParams]
  | cons hd tl ih =>
      obtain ⟨k₀, v⟩ := hd
      by_cases h0 : k₀ = k
      · have h := changedParams_self tl
        simp only [aupdate, h0, if_pos rfl, changedParams, h]
        split <;> omega
      · simp only [aupdate, h0, if_neg h0, changedParams, if_pos rfl] at ih ⊢
        simpa using ih

theorem changedParams_genStep_le (δ : ℚ) (ps : ParamSet) :
    changedParams ps (genStep δ ps) ≤ 1 := by
  by_cases hct : (alookup ps "coherence_target").isSome
  · simpa [genStep, hct] using changedParams_aupdate_le ps "coherence_target" _
  · by_cases hpc : (alookup ps "physics_constant").isSome
    · simpa [genStep, hct, hpc] using changedParams_aupdate_le ps "physics_constant" _
    · simp [genStep, hct, hpc, changedParams_self]

theorem changedTotal_self (fs : FieldModel) : changedTotal fs fs = 0 := by
  induction fs with
  | nil => rfl
  | cons hd tl ih =>
      simpa [changedTotal, changedParams_self] using ih

theorem changedTotal_aupdate_le (fs : FieldModel) (n : String)
    (g : ParamSet → ParamSet) (hg : ∀ ps, changedParams ps (g ps) ≤ 1) :
    changedTotal fs (aupdate fs n g) ≤ 1 := by
  induction fs with
  | nil => simp [aupdate, changedTotal]
  | cons hd tl ih =>
      obtain ⟨k₀, ps⟩ := hd
      by_cases h0 : k₀ = n
      · have h := changedTotal_self tl
        have h2 := hg ps
        simp only [aupdate, h0, if_pos rfl, changedTotal, h]
        omega
      · have h := changedParams_self ps
        simp only [aupdate, h0, if_neg h0, changedTotal, h] at ih ⊢
        omega

/-- C10: drift and resolve never create or delete a field or a parameter:
the shape (field names and each field's parameter names, in order) is
preserved by complete drift and resolve passes, and one agent's step
changes the numeric value of at most one already-existing parameter
entry in the whole model. -/
theorem drift_resolve_frame (fields : FieldModel)
    (agents : List (String × ParamSet)) (history : List ℚ) (t : ℚ) :
    shapeOf (execute_drift fields agents history t) = shapeOf fields ∧
    shapeOf (execute_resolve fields agents t) = shapeOf fields ∧
    (∀ name, changedTotal fields (aupdate fields name (driftStep t)) ≤ 1) ∧
    (∀ name, changedTotal fields (aupdate fields name (resolveStep t)) ≤ 1) := by
  refine ⟨?_, ?_, ?_, ?_⟩
  · rw [execute_drift, driftStep_eq_genStep]
    exact shapeOf_genFold (t * (1/100)) agents fields
  · have he : execute_resolve fields agents t =
        agents.foldl (fun fs a => aupdate fs a.1 (genStep (-(t * (1/200))))) fields := by
      simp only [execute_resolve, resolveStep_eq_genStep]
    rw [he]
    exact shapeOf_genFold (-(t * (1/200))) agents fields
  · intro name
    rw [driftStep_eq_genStep]
    exact changedTotal_aupdate_le fields name _ (changedParams_genStep_le _)
  · intro name
    rw [resolveStep_eq_genStep]
    exact changedTotal_aupdate_le fields name _ (changedParams_genStep_le _)

/-- C6: value-level leniency versus structural fatality.  A structurally
well-formed single-field source whose value token fails numeric conversion
parses successfully with that parameter defaulted to `0`; concretely,
`foo \x7b bar = notanumber \x7d` yields `fields["foo"]["bar"] = 0`; while a
structurally malformed source (here, a missing closing brace) makes the
whole parse return a syntax error, with no partial field model (the error
branch of `Except` carries none). -/
theorem parse_lenient_value_fatal_structure (name pname vtok : String)
    (hn : isIdent name = true) (hp : isIdent pname = true)
    (hv : numParse vtok = none) :
    parseToks [Tok.word name, Tok.lbrace, Tok.word pname, Tok.eq,
        Tok.word vtok, Tok.rbrace] = Except.ok [(name, [(pname, 0)])] ∧
    parse_weave "foo \x7b bar = notanumber \x7d" =
      Except.ok [("foo", [("bar", 0)])] ∧
    parse_weave "foo \x7b bar = 1.0" =
      Except.error "unexpected end of input" := by
  refine ⟨?_, ?_, ?_⟩
  · simp [parseToks, runPTok, pstep, hn, hp, hv, ainsert]
  · rfl
  · rfl

/-- Witness for C6 at the spec's own example strings. -/
theorem parse_lenient_value_fatal_structure_witness :
    parseToks [Tok.word "foo", Tok.lbrace, Tok.word "bar", Tok.eq,
        Tok.word "notanumber", Tok.rbrace] =
      Except.ok [("foo", [("bar", 0)])] :=
  (parse_lenient_value_fatal_structure "foo" "bar" "notanumber"
    rfl rfl rfl).1

/-! History lemmas for C7. -/

theorem countTension_cons (op : WOp) (ops : List WOp) :
    countTension (op :: ops) =
      countTension [op] + countTension ops := by
  cases op <;> simp [countTension]

theorem runOp_history (st : WeaveLang) (op : WOp) (st' : WeaveLang)
    (h : runOp st op = some st') :
    ∃ ext : List ℚ, st'.tension_history = st.tension_history ++ ext ∧
      ext.length = countTension [op] := by
  cases op with
  | load src =>
      refine ⟨[], ?_, rfl⟩
      simp only [runOp, Option.some_inj] at h
      cases hp : parse_weave src <;>
        simp [WeaveLang.load_weave, hp] at h <;> simp [← h]
  | tension sensors =>
      simp only [runOp] at h
      cases hc : WeaveLang.execute_tension st sensors with
      | none => rw [hc] at h; simp at h
      | some p =>
          rw [hc] at h
          obtain ⟨tv, st₂⟩ := p
          simp only [Option.map_some', Option.some_inj] at h
          subst h
          refine ⟨[tv], ?_, rfl⟩
          unfold WeaveLang.execute_tension at hc
          cases hcc : interpreter.execute_tension st.fields sensors with
          | none => rw [hcc] at hc; simp at hc
          | some q =>
              obtain ⟨tq, fsq⟩ := q
              rw [hcc] at hc
              simp only [Option.some_inj] at hc
              have h2 : st₂ = ⟨fsq, st.tension_history ++ [tq]⟩ :=
                (congrArg Prod.snd hc).symm
              have h1 : tv = tq := (congrArg Prod.fst hc).symm
              rw [h2, h1]
  | drift agents t =>
      refine ⟨[], ?_, rfl⟩
      simp only [runOp, Option.some_inj] at h
      simp [← h, WeaveLang.execute_drift]
  | resolve agents t =>
      refine ⟨[], ?_, rfl⟩
      simp only [runOp, Option.some_inj] at h
      simp [← h, WeaveLang.execute_resolve]
  | metaweave sensors =>
      refine ⟨[], ?_, rfl⟩
      simp only [runOp, WeaveLang.execute_metaweave] at h
      cases hc : interpreter.execute_metaweave st.fields sensors with
      | none => rw [hc] at h; simp at h
      | some fs =>
          rw [hc] at h
          simp only [Option.map_some', Option.some_inj] at h
          simp [← h]

theorem runSession_history (ops : List WOp) :
    ∀ st st' : WeaveLang, runSession st ops = some st' →
      ∃ ext : List ℚ, st'.tension_history = st.tension_history ++ ext ∧
        ext.length = countTension ops := by
  induction ops with
  | nil =>
      intro st st' h
      simp only [runSession, Option.some_inj] at h
      exact ⟨[], by simp [← h], rfl⟩
  | cons op rest ih =>
      intro st st' h
      simp only [runSession] at h
      cases hop : runOp st op with
      | none => rw [hop] at h; simp at h
      | some st₁ =>
          rw [hop] at h
          obtain ⟨e₁, he₁, hl₁⟩ := runOp_history st op st₁ hop
          obtain ⟨e₂, he₂, hl₂⟩ := ih st₁ st' h
          refine ⟨e₁ ++ e₂, ?_, ?_⟩
          · rw [he₂, he₁, List.append_assoc]
          · rw [List.length_append, hl₁, hl₂]
            exact (countTension_cons op rest).symm

/-- C7: the tension history is append-only and counts exactly the
successful tension calls.  A successful boundary `execute_tension` call
appends exactly its result to the end of the history, and any completed
session (made of load/tension/drift/resolve/metaweave boundary calls)
extends the starting history by exactly one entry per tension call,
never truncating, reordering or modifying existing entries. -/
theorem tension_history_append_only :
    (∀ (st : WeaveLang) (sensors : Sensors) (t : ℚ) (st' : WeaveLang),
      WeaveLang.execute_tension st sensors = some (t, st') →
      st'.tension_history = st.tension_history ++ [t]) ∧
    (∀ (ops : List WOp) (st st' : WeaveLang),
      runSession st ops = some st' →
      ∃ ext : List ℚ, st'.tension_history = st.tension_history ++ ext ∧
        ext.length = countTension ops) := by
  constructor
  · intro st sensors t st' h
    unfold WeaveLang.execute_tension at h
    cases hcc : interpreter.execute_tension st.fields sensors with
    | none => rw [hcc] at h; simp at h
    | some q =>
        obtain ⟨tq, fsq⟩ := q
        rw [hcc] at h
        simp only [Option.some_inj] at h
        have h2 : st' = ⟨fsq, st.tension_history ++ [tq]⟩ :=
          (congrArg Prod.snd h).symm
        have h1 : t = tq := (congrArg Prod.fst h).symm
        rw [h2, h1]
  · intro ops st st' h
    exact runSession_history ops st st' h

/-- Witness for C7: a tension call on a state with an empty history and a
`"generalist"` field appends exactly the computed tension `1/2`. -/
theorem tension_history_append_only_witness :
    ({ fields := [("generalist", [])],
        tension_history := [(1 : ℚ)/2] } : WeaveLang).tension_history =
      ([] : List ℚ) ++ [(1 : ℚ)/2] :=
  tension_history_append_only.1
    { fields := [("generalist", [])], tension_history := [] } [] ((1 : ℚ)/2)
    { fields := [("generalist", [])], tension_history := [(1 : ℚ)/2] }
    (by norm_num [WeaveLang.execute_tension, interpreter.execute_tension,
      execute_tension, alookup])
